import Mathlib

/-!
A shallow embedding of the tiled distributed-matrix substrate of
`slate_Matrix.hh` (class `slate::Matrix<FloatType>`), together with proofs
about its registry, tile-motion, broadcast-with-lifetime, gather and
distribution operations.

The registry `tiles_` (a map keyed by `(tile_row, tile_col, device)`) and the
life table `lives_` (keyed by `(tile_row, tile_col)`) are modelled as
association lists with `std::map` semantics: at most one binding per key,
`mset` for `operator[]=`, `merase` for `erase`.  Machine integers (`int64_t`,
`int`) are modelled as `Int`.  Element data of a tile is modelled as a `List α`
over an abstract scalar type; "bit-for-bit equal" is equality of that list.
Dereferencing a registry entry that is absent (a `nullptr` `Tile*`) is
undefined behaviour in the C++ source; operations that may do so return
`Option` and yield `none` in exactly those situations.
-/

namespace Slate

/-- `std::map` lookup: the value bound to `k`, if any. -/
def mfind? {κ ν : Type} [DecidableEq κ] : List (κ × ν) → κ → Option ν
  | [], _ => none
  | e :: m, k => if e.1 = k then some e.2 else mfind? m k

/-- `std::map::erase(k)`: drop the binding for `k`. -/
def merase {κ ν : Type} [DecidableEq κ] : List (κ × ν) → κ → List (κ × ν)
  | [], _ => []
  | e :: m, k => if e.1 = k then merase m k else e :: merase m k

/-- `(*map)[k] = v`: bind `k` to `v`, replacing any previous binding. -/
def mset {κ ν : Type} [DecidableEq κ] (m : List (κ × ν)) (k : κ) (v : ν) : List (κ × ν) :=
  (k, v) :: merase m k

theorem mfind?_merase {κ ν : Type} [DecidableEq κ] (m : List (κ × ν)) (k k' : κ) :
    mfind? (merase m k) k' = if k' = k then none else mfind? m k' := by
  induction m with
  | nil => simp [mfind?, merase]
  | cons e m ih =>
    by_cases hek : e.1 = k <;> by_cases hek' : e.1 = k' <;> by_cases hk : k' = k <;>
      simp_all [mfind?, merase]

theorem mfind?_mset {κ ν : Type} [DecidableEq κ] (m : List (κ × ν)) (k k' : κ) (v : ν) :
    mfind? (mset m k v) k' = if k' = k then some v else mfind? m k' := by
  by_cases hk : k' = k
  · subst hk; simp [mfind?, mset]
  · simpa [mfind?, mset, Ne.symm hk, hk] using mfind?_merase m k k'

theorem mfind?_mset_self {κ ν : Type} [DecidableEq κ] (m : List (κ × ν)) (k : κ) (v : ν) :
    mfind? (mset m k v) k = some v := by
  simp [mfind?_mset]

theorem mfind?_merase_self {κ ν : Type} [DecidableEq κ] (m : List (κ × ν)) (k : κ) :
    mfind? (merase m k) k = none := by
  simp [mfind?_merase]

/-- A dense tile: row extent `mb_`, column extent `nb_`, and its element
block.  `data` models the `mb·nb` elements reachable from `data_`. -/
structure Tile (α : Type) where
  mb : Int
  nb : Int
  data : List α
deriving DecidableEq

/-- Modelled from the spec: `Tile::copyToDevice` (in `slate_Tile.hh`, not under
`src/`) returns a new tile on the device; per spec §4.1 *copy_to* it
"Preserves `mb`, `nb`" and copies the element block unchanged. -/
def Tile.deviceCopy {α : Type} (t : Tile α) : Tile α :=
  ⟨t.mb, t.nb, t.data⟩

/-- Modelled from the spec: `Tile::copyToHost`, the mirror of
`Tile.deviceCopy`; preserves extents and element contents. -/
def Tile.hostCopy {α : Type} (t : Tile α) : Tile α :=
  ⟨t.mb, t.nb, t.data⟩

/-- Registry key `(tile_row, tile_col, device)`; `std::tuple<int64_t, int64_t, int>`. -/
abbrev TKey := Int × Int × Int

/-- Life-table key `(tile_row, tile_col)`. -/
abbrev LKey := Int × Int

/-- The shared mutable state a `Matrix` points to: the tile registry `tiles_`
and the life table `lives_`.  Submatrix views alias this state. -/
structure Storage (α : Type) where
  tiles : List (TKey × Tile α)
  lives : List (LKey × Int)
deriving DecidableEq

/-- The per-view fields of `slate::Matrix`: tile offsets and extents, the four
distribution functions, communicator data, and the (pointer identities of the)
shared registry, life table and memory pool. -/
structure Matrix where
  it : Int
  jt : Int
  mt : Int
  nt : Int
  tileRankFunc : Int → Int → Int
  tileDeviceFunc : Int → Int → Int
  tileMbFunc : Int → Int
  tileNbFunc : Int → Int
  mpi_rank : Int
  mpi_size : Int
  host_num : Int
  num_devices : Nat
  tilesPtr : Nat
  livesPtr : Nat
  memoryPtr : Nat

/-- `Matrix::tileRank(i, j) = tileRankFunc(it_+i, jt_+j)`. -/
def Matrix.tileRank (A : Matrix) (i j : Int) : Int :=
  A.tileRankFunc (A.it + i) (A.jt + j)

/-- `Matrix::tileDevice(i, j) = tileDeviceFunc(it_+i, jt_+j)`. -/
def Matrix.tileDevice (A : Matrix) (i j : Int) : Int :=
  A.tileDeviceFunc (A.it + i) (A.jt + j)

/-- `Matrix::tileMb(i) = tileMbFunc(it_+i)`. -/
def Matrix.tileMb (A : Matrix) (i : Int) : Int :=
  A.tileMbFunc (A.it + i)

/-- `Matrix::tileNb(j) = tileNbFunc(jt_+j)`. -/
def Matrix.tileNb (A : Matrix) (j : Int) : Int :=
  A.tileNbFunc (A.jt + j)

/-- `Matrix::tileIsLocal(i, j)`: `tileRank(i, j) == mpi_rank_`. -/
def Matrix.tileIsLocal (A : Matrix) (i j : Int) : Bool :=
  A.tileRank i j == A.mpi_rank

/-- The registry key used by `Matrix::operator()(i, j, device)`:
`{it_+i, jt_+j, device}`. -/
def Matrix.tkey (A : Matrix) (i j loc : Int) : TKey :=
  (A.it + i, A.jt + j, loc)

/-- The life-table key `{it_+i, jt_+j}`. -/
def Matrix.lkey (A : Matrix) (i j : Int) : LKey :=
  (A.it + i, A.jt + j)

/-- The same matrix handle as seen by MPI rank `rk` (all ranks construct the
matrix with identical arguments; only `mpi_rank_` differs). -/
def Matrix.atRank (A : Matrix) (rk : Int) : Matrix :=
  { A with mpi_rank := rk }

/-- `Matrix::tileCopyToDevice(i, j, dst_device)`: if the tile is not on the
device, copy the host tile to the device and insert it; the host entry is
preserved.  `none` when the host entry is dereferenced but absent. -/
def Matrix.tileCopyToDevice {α : Type} (A : Matrix) (i j : Int) (dst : Int)
    (s : Storage α) : Option (Storage α) :=
  if (mfind? s.tiles (A.tkey i j dst)).isSome then
    some s
  else
    match mfind? s.tiles (A.tkey i j A.host_num) with
    | some src => some { s with tiles := mset s.tiles (A.tkey i j dst) src.deviceCopy }
    | none => none

/-- `Matrix::tileMoveToDevice(i, j, dst_device)`: like the copy, then deletes
the host entry. -/
def Matrix.tileMoveToDevice {α : Type} (A : Matrix) (i j : Int) (dst : Int)
    (s : Storage α) : Option (Storage α) :=
  if (mfind? s.tiles (A.tkey i j dst)).isSome then
    some s
  else
    match mfind? s.tiles (A.tkey i j A.host_num) with
    | some src =>
        some { s with tiles := merase (mset s.tiles (A.tkey i j dst) src.deviceCopy) (A.tkey i j A.host_num) }
    | none => none

/-- `Matrix::tileMoveToHost(i, j, src_device)`: only if the tile is *not* on
the host, copy the device tile to the host and delete the device entry. -/
def Matrix.tileMoveToHost {α : Type} (A : Matrix) (i j : Int) (src : Int)
    (s : Storage α) : Option (Storage α) :=
  if (mfind? s.tiles (A.tkey i j A.host_num)).isSome then
    some s
  else
    match mfind? s.tiles (A.tkey i j src) with
    | some t =>
        some { s with tiles := merase (mset s.tiles (A.tkey i j A.host_num) t.hostCopy) (A.tkey i j src) }
    | none => none

/-- `Matrix::tileErase(i, j, device)`: erase the entry if it exists; no-op
otherwise. -/
def Matrix.tileErase {α : Type} (A : Matrix) (i j : Int) (dev : Int)
    (s : Storage α) : Storage α :=
  if (mfind? s.tiles (A.tkey i j dev)).isSome then
    { s with tiles := merase s.tiles (A.tkey i j dev) }
  else s

/-- `Matrix::tileTick(i, j)`: for non-local tiles, `life = --(*lives_)[key]`
(a missing entry is default-constructed to `0`); when the decremented value is
`0`, erase the host entry, every device entry, and the life entry. -/
def Matrix.tileTick {α : Type} (A : Matrix) (i j : Int) (s : Storage α) : Storage α :=
  if A.tileIsLocal i j then s
  else
    let life := (mfind? s.lives (A.lkey i j)).getD 0 - 1
    let s1 : Storage α := { s with lives := mset s.lives (A.lkey i j) life }
    if life = 0 then
      let s2 := A.tileErase i j A.host_num s1
      let s3 := (List.range A.num_devices).foldl
        (fun t (d : Nat) => A.tileErase i j (d : Int) t) s2
      { s3 with lives := merase s3.lives (A.lkey i j) }
    else s1

/-- `n` successive calls of `Matrix::tileTick(i, j)`. -/
def Matrix.tickN {α : Type} (A : Matrix) (i j : Int) : Nat → Storage α → Storage α
  | 0, s => s
  | n + 1, s => A.tickN i j n (A.tileTick i j s)

/-- `Matrix::checkLife()`: its entire body is commented out in the source; it
performs no check and reports nothing. -/
def Matrix.checkLife {α : Type} (_A : Matrix) (_s : Storage α) : List String :=
  []

/-- A consumer range `std::array<int64_t, 4> = {i1, i2, j1, j2}`: the cell
block `[i1..i2] × [j1..j2]` (inclusive bounds, as in the source loops). -/
structure Range where
  i1 : Int
  i2 : Int
  j1 : Int
  j2 : Int

/-- The cells of a range, as iterated by
`for (i = i1; i <= i2; ++i) for (j = j1; j <= j2; ++j)`. -/
def Range.cells (r : Range) : Finset (Int × Int) :=
  Finset.Icc r.i1 r.i2 ×ˢ Finset.Icc r.j1 r.j2

/-- `Matrix::tileSendFindRanks`: the set of ranks `tileRank(i, j)` over the
cells of the range (inserted into the caller's `bcast_set`). -/
def Matrix.tileSendFindRanks (A : Matrix) (r : Range) : Finset Int :=
  r.cells.image (fun p => A.tileRank p.1 p.2)

/-- The broadcast set built by the one-range `Matrix::tileSend` overload:
the tile's own rank plus the ranks owning cells of the range. -/
def Matrix.bcastSetR (A : Matrix) (i j : Int) (r : Range) : Finset Int :=
  insert (A.tileRank i j) (A.tileSendFindRanks r)

/-- The broadcast set built by the two-range `Matrix::tileSend` overload. -/
def Matrix.bcastSetR2 (A : Matrix) (i j : Int) (r1 r2 : Range) : Finset Int :=
  insert (A.tileRank i j) (A.tileSendFindRanks r1 ∪ A.tileSendFindRanks r2)

/-- `Matrix::tileSendFindLife`: the number of cells of the range for which
`tileIsLocal(i, j)` holds. -/
def Matrix.tileSendFindLife (A : Matrix) (r : Range) : Int :=
  ((r.cells.filter (fun p => A.tileIsLocal p.1 p.2 = true)).card : Int)

/-- `slate::Target` (only the values the modelled code inspects). -/
inductive Target where
  | Host : Target
  | Devices : Target
deriving DecidableEq

/-- The MPI datatype argument the source passes to transport calls.  Every
transport call in `slate_Matrix.hh` passes `MPI_DOUBLE`. -/
inductive MpiDatatype where
  | double : MpiDatatype
deriving DecidableEq

/-- Size in bytes of an element of the MPI datatype (`MPI_DOUBLE` is 8). -/
def MpiDatatype.bytes : MpiDatatype → Int
  | .double => 8

/-- One transport invocation, with its element count and datatype as passed
by the source. -/
inductive MpiCall where
  | send : Int → MpiDatatype → Int → MpiCall
  | recv : Int → MpiDatatype → Int → MpiCall
  | bcast : Int → MpiDatatype → Int → MpiCall
deriving DecidableEq

/-- Bytes covered by a transport call: `count * sizeof(datatype)`. -/
def MpiCall.byteCount : MpiCall → Int
  | .send c dt _ => c * dt.bytes
  | .recv c dt _ => c * dt.bytes
  | .bcast c dt _ => c * dt.bytes

/-- Byte size of a tile's element block when the scalar type occupies
`sz` bytes (`sizeof(FloatType)`): `mb·nb·sz`. -/
def Tile.byteSize {α : Type} (sz : Int) (t : Tile α) : Int :=
  t.mb * t.nb * sz

/-- `Matrix::tileSend(i, j, dest)` (point-to-point): reads the host tile and
issues `MPI_Send(tile->data_, tile->mb_*tile->nb_, MPI_DOUBLE, dest, 0, ..)`.
The registry is unchanged.  `none` when the host entry is absent. -/
def Matrix.tileSendP2P {α : Type} (A : Matrix) (i j : Int) (dest : Int)
    (s : Storage α) : Option (Storage α × List MpiCall) :=
  match mfind? s.tiles (A.tkey i j A.host_num) with
  | some t => some (s, [MpiCall.send (t.mb * t.nb) MpiDatatype.double dest])
  | none => none

/-- `Matrix::tileRecv(i, j, src)`: allocates a fresh
`ColMajorTile(tileMb(i), tileNb(j))` host tile, inserts it, and issues
`MPI_Recv` into its buffer with `count = mb·nb`.  `payload` is the element
block delivered by the matched send. -/
def Matrix.tileRecvP2P {α : Type} (A : Matrix) (i j : Int) (src : Int)
    (payload : List α) (s : Storage α) : Storage α × List MpiCall :=
  let t : Tile α := ⟨A.tileMb i, A.tileNb j, payload⟩
  ({ s with tiles := mset s.tiles (A.tkey i j A.host_num) t },
   [MpiCall.recv (A.tileMb i * A.tileNb j) MpiDatatype.double src])

/-- `Matrix::tileSend(i, j, bcast_set)`: returns at once when the set has one
member; otherwise builds the sub-communicator and issues
`MPI_Bcast(tile->data_, tile->mb_*tile->nb_, MPI_DOUBLE, root, ..)`.  On every
member the buffer afterwards holds the root's element block `rootData`
(on the root itself the broadcast leaves its buffer unchanged, and the
theorems instantiate `rootData` with the root's own data).  `none` when the
local host entry is dereferenced but absent. -/
def Matrix.tileSendSet {α : Type} (A : Matrix) (i j : Int) (S : Finset Int)
    (rootData : List α) (s : Storage α) : Option (Storage α × List MpiCall) :=
  if S.card = 1 then some (s, [])
  else
    match mfind? s.tiles (A.tkey i j A.host_num) with
    | some t =>
        some ({ s with tiles := mset s.tiles (A.tkey i j A.host_num) ⟨t.mb, t.nb, rootData⟩ },
              [MpiCall.bcast (t.mb * t.nb) MpiDatatype.double (A.tileRank i j)])
    | none => none

/-- Modelled from the spec: the receive slot created by
`new ColMajorTile<FloatType>(tileMb(i), tileNb(j), memory_)`
(`slate_ColMajorTile.hh` is not under `src/`): an `mb × nb` host tile whose
element block is freshly allocated (uninitialised; modelled as `default`). -/
def Matrix.blankTile {α : Type} [Inhabited α] (A : Matrix) (i j : Int) : Tile α :=
  ⟨A.tileMb i, A.tileNb j, List.replicate (A.tileMb i * A.tileNb j).toNat default⟩

/-- The one-range `Matrix::tileSend<target>(i, j, range)` overload, as run by
the current rank `A.mpi_rank`: build the broadcast set; if this rank is in it,
create the receive slot and the life entry when the tile is not local, perform
the set broadcast (with the root's payload `rootData`), and for
`target == Devices` copy the tile to every device. -/
def Matrix.tileSendRange {α : Type} [Inhabited α] (A : Matrix) (target : Target)
    (i j : Int) (r : Range) (rootData : List α) (s : Storage α) :
    Option (Storage α × List MpiCall) :=
  let S := A.bcastSetR i j r
  if A.mpi_rank ∈ S then
    let s1 : Storage α :=
      if A.tileIsLocal i j then s
      else
        { tiles := mset s.tiles (A.tkey i j A.host_num) (A.blankTile i j),
          lives := mset s.lives (A.lkey i j) (A.tileSendFindLife r) }
    match A.tileSendSet i j S rootData s1 with
    | some (s2, calls) =>
        if target = Target.Devices then
          match (List.range A.num_devices).foldlM
              (fun t (d : Nat) => A.tileCopyToDevice i j (d : Int) t) s2 with
          | some s3 => some (s3, calls)
          | none => none
        else some (s2, calls)
    | none => none
  else some (s, [])

/-- The two-range `Matrix::tileSend<target>(i, j, range1, range2)` overload:
the broadcast set collects both ranges, and the life entry is first set from
`range1` then incremented by the count from `range2`. -/
def Matrix.tileSendRange2 {α : Type} [Inhabited α] (A : Matrix) (target : Target)
    (i j : Int) (r1 r2 : Range) (rootData : List α) (s : Storage α) :
    Option (Storage α × List MpiCall) :=
  let S := A.bcastSetR2 i j r1 r2
  if A.mpi_rank ∈ S then
    let s1 : Storage α :=
      if A.tileIsLocal i j then s
      else
        { tiles := mset s.tiles (A.tkey i j A.host_num) (A.blankTile i j),
          lives := mset s.lives (A.lkey i j) (A.tileSendFindLife r1 + A.tileSendFindLife r2) }
    match A.tileSendSet i j S rootData s1 with
    | some (s2, calls) =>
        if target = Target.Devices then
          match (List.range A.num_devices).foldlM
              (fun t (d : Nat) => A.tileCopyToDevice i j (d : Int) t) s2 with
          | some s3 => some (s3, calls)
          | none => none
        else some (s2, calls)
    | none => none
  else some (s, [])

/-- The element block held by the owner of tile `(i, j)` at `(I, J, host)` in
the multi-rank configuration `cfg` (rank `rk`'s storage is `cfg rk`).  This is
the payload a broadcast or matched point-to-point send delivers. -/
def ownerData {α : Type} (A : Matrix) (i j : Int) (cfg : Int → Storage α) : Option (List α) :=
  (mfind? (cfg (A.tileRank i j)).tiles (A.tkey i j A.host_num)).map Tile.data

/-- The lower-triangle tile indices iterated by `Matrix::gather()`:
`for (i = 0; i < mt_; ++i) for (j = 0; j <= i && j < nt_; ++j)`. -/
def Matrix.gatherIdx (A : Matrix) : List (Int × Int) :=
  (List.range A.mt.toNat).flatMap (fun i =>
    (List.range (min (i + 1) A.nt.toNat)).map (fun (j : Nat) => ((i : Int), (j : Int))))

/-- One loop iteration of `Matrix::gather()` on the root (rank 0): for a
lower-triangle tile not local to rank 0, `tileRecv(i, j, tileRank(i, j))`,
whose payload is the owning rank's host tile; `none` when the owner would
dereference a missing tile for its matched send. -/
def Matrix.gatherRootStep {α : Type} (A : Matrix) (cfg : Int → Storage α)
    (acc : Storage α × List MpiCall) (p : Int × Int) :
    Option (Storage α × List MpiCall) :=
  if (A.atRank 0).tileIsLocal p.1 p.2 then some acc
  else
    match ownerData A p.1 p.2 cfg with
    | some pd =>
        let r := (A.atRank 0).tileRecvP2P p.1 p.2 (A.tileRank p.1 p.2) pd acc.1
        some (r.1, acc.2 ++ r.2)
    | none => none

/-- `Matrix::gather()` as executed on the root (rank 0). -/
def Matrix.gatherRoot {α : Type} (A : Matrix) (cfg : Int → Storage α) :
    Option (Storage α × List MpiCall) :=
  A.gatherIdx.foldlM (A.gatherRootStep cfg) (cfg 0, [])

/-- One loop iteration of `Matrix::gather()` on a non-root rank `rk`: for a
lower-triangle tile local to `rk`, `tileSend(i, j, 0)`. -/
def Matrix.gatherNonRootStep {α : Type} (A : Matrix) (rk : Int)
    (acc : Storage α × List MpiCall) (p : Int × Int) :
    Option (Storage α × List MpiCall) :=
  if (A.atRank rk).tileIsLocal p.1 p.2 then
    match (A.atRank rk).tileSendP2P p.1 p.2 0 acc.1 with
    | some r => some (r.1, acc.2 ++ r.2)
    | none => none
  else some acc

/-- `Matrix::gather()` as executed on a non-root rank `rk`. -/
def Matrix.gatherNonRoot {α : Type} (A : Matrix) (rk : Int) (s : Storage α) :
    Option (Storage α × List MpiCall) :=
  A.gatherIdx.foldlM (A.gatherNonRootStep rk) (s, [])

/-- `Matrix::gather()` on rank `rk` of the configuration `cfg`. -/
def Matrix.gather {α : Type} (A : Matrix) (cfg : Int → Storage α) (rk : Int) :
    Option (Storage α × List MpiCall) :=
  if rk = 0 then A.gatherRoot cfg else A.gatherNonRoot rk (cfg rk)

/-- `Matrix::operator()(i, j)` as a lookup: the host entry at
`{it_+i, jt_+j, host_num_}`. -/
def Matrix.tileAt {α : Type} (A : Matrix) (i j : Int) (s : Storage α) : Option (Tile α) :=
  mfind? s.tiles (A.tkey i j A.host_num)

/-- `(*this)(i, j) = tile`: insert through `Matrix::operator()(i, j)`. -/
def Matrix.setTileAt {α : Type} (A : Matrix) (i j : Int) (t : Tile α) (s : Storage α) :
    Storage α :=
  { s with tiles := mset s.tiles (A.tkey i j A.host_num) t }

/-- The submatrix constructor `Matrix(a, m1, m2, n1, n2)`: `*this = a`, then
`it_ += m1; jt_ += n1; mt_ = m2-m1+1; nt_ = n2-n1+1`.  All other fields —
including the shared registry, life table and pool pointers — are copied. -/
def Matrix.submatrix (a : Matrix) (m1 m2 n1 n2 : Int) : Matrix :=
  { a with it := a.it + m1, jt := a.jt + n1, mt := m2 - m1 + 1, nt := n2 - n1 + 1 }

/-- `mt_ = m % nb == 0 ? m/nb : m/nb+1` from the principal constructor. -/
def ctorMt (m nb : Int) : Int :=
  if m % nb = 0 then m / nb else m / nb + 1

/-- The default row-height function installed by the constructor:
`tileMbFunc = [=](int64_t i) { return i*nb > m ? m%nb : nb; }`. -/
def defaultTileMb (m nb : Int) : Int → Int :=
  fun i => if i * nb > m then m % nb else nb

/-- The default column-width function installed by the constructor:
`tileNbFunc = [=](int64_t j) { return j*nb > n ? n%nb : nb; }`. -/
def defaultTileNb (n nb : Int) : Int → Int :=
  fun j => if j * nb > n then n % nb else nb

/-- The default 2-D block-cyclic rank function:
`tileRankFunc = [=](int64_t i, int64_t j) { return i%p + (j%q)*p; }`. -/
def defaultTileRank (p q : Int) : Int → Int → Int :=
  fun i j => i % p + (j % q) * p

/-- The default device function: `j/q % num_devices` when devices exist,
else `host_num`. -/
def defaultTileDevice (q : Int) (num_devices : Int) (host_num : Int) : Int → Int → Int :=
  fun _ j => if num_devices > 0 then j / q % num_devices else host_num

/-- The lower-triangle index list iterated by `Matrix::random()`,
`Matrix::copyTo()`, `Matrix::getMaxHostTiles()` and
`Matrix::getMaxDeviceTiles()`:
`for (i = 0; i < mt_; ++i) for (j = 0; j <= i; ++j)`. -/
def Matrix.lowerIdx (A : Matrix) : List (Int × Int) :=
  (List.range A.mt.toNat).flatMap (fun i =>
    (List.range (i + 1)).map (fun (j : Nat) => ((i : Int), (j : Int))))

/-- `Matrix::copyTo(a, lda)`: for every lower-triangle local tile, insert a
`ColMajorTile` wrapping the caller's block at the running offsets.  The
element pointer arithmetic (`&a[lda*n+m]`, `lda`) and the `ColMajorTile`
wrapper (not under `src/`) are abstracted into `wrap i j`. -/
def Matrix.copyTo {α : Type} (A : Matrix) (wrap : Int → Int → Tile α) (s : Storage α) :
    Storage α :=
  A.lowerIdx.foldl
    (fun st p =>
      if A.tileIsLocal p.1 p.2 then
        { st with tiles := mset st.tiles (A.tkey p.1 p.2 A.host_num) (wrap p.1 p.2) }
      else st)
    s

/-- `Matrix::random()`: for every lower-triangle local tile, insert a freshly
allocated tile filled by `lapack::larnv` with a diagonal bump.  The element
contents (LAPACK generator, not under `src/`) are abstracted into `rand i j`. -/
def Matrix.random {α : Type} (A : Matrix) (rand : Int → Int → Tile α) (s : Storage α) :
    Storage α :=
  A.lowerIdx.foldl
    (fun st p =>
      if A.tileIsLocal p.1 p.2 then
        { st with tiles := mset st.tiles (A.tkey p.1 p.2 A.host_num) (rand p.1 p.2) }
      else st)
    s

/-- `Matrix::getMaxHostTiles()`: count of lower-triangle local tiles. -/
def Matrix.getMaxHostTiles (A : Matrix) : Int :=
  A.lowerIdx.foldl
    (fun acc p => if A.tileIsLocal p.1 p.2 then acc + 1 else acc) 0

/-- `Matrix::getMaxDeviceTiles(device)`: count of lower-triangle local tiles
mapped to `device`. -/
def Matrix.getMaxDeviceTiles (A : Matrix) (device : Int) : Int :=
  A.lowerIdx.foldl
    (fun acc p =>
      if A.tileIsLocal p.1 p.2 && (A.tileDevice p.1 p.2 == device) then acc + 1 else acc) 0

/-! ### Basic lemmas about keys, erasure and ticking -/

theorem tkey_eq_iff (A : Matrix) (i j a b : Int) :
    A.tkey i j a = A.tkey i j b ↔ a = b := by
  simp [Matrix.tkey]

theorem tkey_inj (A : Matrix) (loc : Int) (p q : Int × Int) :
    A.tkey p.1 p.2 loc = A.tkey q.1 q.2 loc ↔ p = q := by
  simp [Matrix.tkey, Prod.ext_iff]

theorem tileErase_find {α : Type} (A : Matrix) (i j dev : Int) (s : Storage α) (k : TKey) :
    mfind? (A.tileErase i j dev s).tiles k
      = if k = A.tkey i j dev then none else mfind? s.tiles k := by
  unfold Matrix.tileErase
  by_cases h : (mfind? s.tiles (A.tkey i j dev)).isSome = true
  · rw [if_pos h]
    exact mfind?_merase s.tiles (A.tkey i j dev) k
  · rw [if_neg h]
    by_cases hk : k = A.tkey i j dev
    · subst hk
      rw [if_pos rfl]
      cases hopt : mfind? s.tiles (A.tkey i j dev) with
      | none => rfl
      | some v => exact absurd (by simp [hopt]) h
    · rw [if_neg hk]

theorem tileErase_lives {α : Type} (A : Matrix) (i j dev : Int) (s : Storage α) :
    (A.tileErase i j dev s).lives = s.lives := by
  unfold Matrix.tileErase
  by_cases h : (mfind? s.tiles (A.tkey i j dev)).isSome = true
  · rw [if_pos h]
  · rw [if_neg h]

theorem foldErase_find {α : Type} (A : Matrix) (i j : Int) (n : Nat) (s : Storage α) (k : TKey) :
    mfind? ((List.range n).foldl (fun t (d : Nat) => A.tileErase i j (d : Int) t) s).tiles k
      = if ∃ d : Nat, d < n ∧ k = A.tkey i j (d : Int) then none else mfind? s.tiles k := by
  induction n with
  | zero => simp
  | succ n ih =>
    rw [List.range_succ, List.foldl_append]
    simp only [List.foldl_cons, List.foldl_nil]
    rw [tileErase_find, ih]
    by_cases hk : k = A.tkey i j (n : Int)
    · rw [if_pos hk]
      rw [if_pos ⟨n, Nat.lt_succ_self n, hk⟩]
    · rw [if_neg hk]
      by_cases hex : ∃ d : Nat, d < n ∧ k = A.tkey i j (d : Int)
      · obtain ⟨d, hd, hkd⟩ := hex
        rw [if_pos ⟨d, hd, hkd⟩, if_pos ⟨d, Nat.lt_succ_of_lt hd, hkd⟩]
      · rw [if_neg hex, if_neg ?_]
        rintro ⟨d, hd, hkd⟩
        rcases Nat.lt_succ_iff_lt_or_eq.mp hd with hlt | heq
        · exact hex ⟨d, hlt, hkd⟩
        · subst heq; exact hk hkd

theorem foldErase_lives {α : Type} (A : Matrix) (i j : Int) (n : Nat) (s : Storage α) :
    ((List.range n).foldl (fun t (d : Nat) => A.tileErase i j (d : Int) t) s).lives = s.lives := by
  induction n with
  | zero => simp
  | succ n ih =>
    rw [List.range_succ, List.foldl_append]
    simp only [List.foldl_cons, List.foldl_nil]
    rw [tileErase_lives, ih]

theorem tileTick_local {α : Type} (A : Matrix) (i j : Int) (s : Storage α)
    (h : A.tileIsLocal i j = true) :
    A.tileTick i j s = s := by
  simp [Matrix.tileTick, h]

theorem tileTick_pos {α : Type} (A : Matrix) (i j : Int) (s : Storage α) (v : Int)
    (hnl : A.tileIsLocal i j = false)
    (hv : mfind? s.lives (A.lkey i j) = some v) (h1 : v ≠ 1) :
    A.tileTick i j s = { s with lives := mset s.lives (A.lkey i j) (v - 1) } := by
  have hv0 : v - 1 ≠ 0 := fun h => h1 (by omega)
  simp [Matrix.tileTick, hnl, hv, hv0]

theorem tileTick_nolife {α : Type} (A : Matrix) (i j : Int) (s : Storage α)
    (hnl : A.tileIsLocal i j = false)
    (hv : mfind? s.lives (A.lkey i j) = none) :
    A.tileTick i j s = { s with lives := mset s.lives (A.lkey i j) (-1) } := by
  simp [Matrix.tileTick, hnl, hv]

theorem tileTick_last {α : Type} (A : Matrix) (i j : Int) (s : Storage α)
    (hnl : A.tileIsLocal i j = false)
    (hv : mfind? s.lives (A.lkey i j) = some 1) :
    mfind? (A.tileTick i j s).lives (A.lkey i j) = none ∧
    mfind? (A.tileTick i j s).tiles (A.tkey i j A.host_num) = none ∧
    ∀ d : Nat, d < A.num_devices →
      mfind? (A.tileTick i j s).tiles (A.tkey i j (d : Int)) = none := by
  have hredT : (A.tileTick i j s).tiles =
      ((List.range A.num_devices).foldl (fun t (d : Nat) => A.tileErase i j (d : Int) t)
        (A.tileErase i j A.host_num { s with lives := mset s.lives (A.lkey i j) 0 })).tiles := by
    simp [Matrix.tileTick, hnl, hv]
  have hredL : (A.tileTick i j s).lives =
      merase ((List.range A.num_devices).foldl (fun t (d : Nat) => A.tileErase i j (d : Int) t)
        (A.tileErase i j A.host_num { s with lives := mset s.lives (A.lkey i j) 0 })).lives
        (A.lkey i j) := by
    simp [Matrix.tileTick, hnl, hv]
  refine ⟨?_, ?_, ?_⟩
  · rw [hredL]
    exact mfind?_merase_self _ _
  · rw [hredT, foldErase_find]
    by_cases hex : ∃ d : Nat, d < A.num_devices ∧
        A.tkey i j A.host_num = A.tkey i j (d : Int)
    · rw [if_pos hex]
    · rw [if_neg hex, tileErase_find, if_pos rfl]
  · intro d hd
    rw [hredT, foldErase_find]
    rw [if_pos ⟨d, hd, rfl⟩]

theorem tickN_drain {α : Type} (A : Matrix) (i j : Int) (L : Nat) (s : Storage α)
    (hnl : A.tileIsLocal i j = false) (hpos : 0 < L)
    (hv : mfind? s.lives (A.lkey i j) = some (L : Int)) :
    mfind? (A.tickN i j L s).lives (A.lkey i j) = none ∧
    mfind? (A.tickN i j L s).tiles (A.tkey i j A.host_num) = none ∧
    ∀ d : Nat, d < A.num_devices →
      mfind? (A.tickN i j L s).tiles (A.tkey i j (d : Int)) = none := by
  induction L generalizing s with
  | zero => omega
  | succ n ih =>
    by_cases hn : n = 0
    · subst hn
      have := tileTick_last A i j s hnl (by simpa using hv)
      simpa [Matrix.tickN] using this
    · have hne : ((n : Int) + 1) ≠ 1 := by omega
      have hstep : A.tileTick i j s
          = { s with lives := mset s.lives (A.lkey i j) ((n : Int) + 1 - 1) } :=
        tileTick_pos A i j s ((n : Int) + 1) hnl (by simpa using hv) hne
      have heq : ((n : Int) + 1 - 1) = (n : Int) := by omega
      have hunf : A.tickN i j (n + 1) s = A.tickN i j n (A.tileTick i j s) := rfl
      rw [hunf, hstep, heq]
      exact ih { s with lives := mset s.lives (A.lkey i j) (n : Int) }
        (Nat.pos_of_ne_zero hn) (mfind?_mset_self s.lives (A.lkey i j) (n : Int))

theorem tickN_add {α : Type} (A : Matrix) (i j : Int) (a b : Nat) (s : Storage α) :
    A.tickN i j (a + b) s = A.tickN i j b (A.tickN i j a s) := by
  induction a generalizing s with
  | zero => simp [Matrix.tickN]
  | succ n ih =>
    have : n + 1 + b = (n + b) + 1 := by omega
    rw [this]
    show A.tickN i j (n + b) (A.tileTick i j s) = _
    rw [ih]
    rfl

/-! ### Concrete fixtures (used by counterexamples and witnesses) -/

/-- Fixture for scenario S4: `M = N = 4`, `nb = 2`, `p = q = 1`, two devices,
one rank; `host_num = 2` (the first location id after the two devices). -/
def exS4Mat : Matrix :=
  { it := 0, jt := 0, mt := ctorMt 4 2, nt := ctorMt 4 2,
    tileRankFunc := defaultTileRank 1 1,
    tileDeviceFunc := defaultTileDevice 1 2 2,
    tileMbFunc := defaultTileMb 4 2,
    tileNbFunc := defaultTileNb 4 2,
    mpi_rank := 0, mpi_size := 1, host_num := 2, num_devices := 2,
    tilesPtr := 0, livesPtr := 0, memoryPtr := 0 }

/-- A concrete `2 × 2` host tile. -/
def exS4Tile : Tile Int := ⟨2, 2, [1, 2, 3, 4]⟩

/-- A registry holding only the host entry of tile `(0, 0)`. -/
def exS4Store : Storage Int := ⟨[((0, 0, 2), exS4Tile)], []⟩

/-- Fixture for a rank that received a remote tile by broadcast: the tile
`(0, 0)` is owned by rank 0 but this rank is 1; the tile is resident on the
host (`host_num = 2`) and on both devices, with life counter `2`. -/
def exRemMat : Matrix :=
  { it := 0, jt := 0, mt := 2, nt := 2,
    tileRankFunc := fun _ _ => 0,
    tileDeviceFunc := defaultTileDevice 1 2 2,
    tileMbFunc := defaultTileMb 4 2,
    tileNbFunc := defaultTileNb 4 2,
    mpi_rank := 1, mpi_size := 2, host_num := 2, num_devices := 2,
    tilesPtr := 0, livesPtr := 0, memoryPtr := 0 }

/-- The received tile resident at host and both devices, with life `2`. -/
def exRemStore : Storage Int :=
  ⟨[((0, 0, 2), exS4Tile), ((0, 0, 0), exS4Tile), ((0, 0, 1), exS4Tile)],
   [((0, 0), 2)]⟩

/-! ### C1 — copy to device followed by move to host -/

/-- C1 is false on the code: on the S4 fixture, `tileCopyToDevice(0,0,1)`
followed by `tileMoveToHost(0,0,1)` leaves the device entry `(0,0,1)` in the
registry — `tileMoveToHost` is a no-op because the host entry is still present
— so the registry holds two entries for the tile, not exactly one. -/
theorem c1_counterexample :
    ((exS4Mat.tileCopyToDevice 0 0 1 exS4Store).bind (exS4Mat.tileMoveToHost 0 0 1)).map
        (fun s => ((mfind? s.tiles (0, 0, 1)).isSome, s.tiles.length))
      = some (true, 2) := by decide

/-- C1 (amended): for a tile resident only on the host, `copy_to_device(i,j,d)`
followed by `move_to_host(i,j,d)` leaves the host entry unchanged — bit-for-bit
equal to the original — but, because `move_to_host` is a no-op whenever a host
entry is present, the device entry `(i,j,d)` also remains: the registry holds
exactly the two entries, host and device, the device copy's contents equal to
the original host tile. -/
theorem c1_copy_then_move {α : Type} (A : Matrix) (i j d : Int) (s : Storage α) (t0 : Tile α)
    (hd : d ≠ A.host_num)
    (hhost : mfind? s.tiles (A.tkey i j A.host_num) = some t0)
    (honly : ∀ loc, loc ≠ A.host_num → mfind? s.tiles (A.tkey i j loc) = none) :
    ∃ s', (A.tileCopyToDevice i j d s).bind (A.tileMoveToHost i j d) = some s' ∧
      mfind? s'.tiles (A.tkey i j A.host_num) = some t0 ∧
      (mfind? s'.tiles (A.tkey i j d)).map Tile.data = some t0.data ∧
      ∀ loc, (mfind? s'.tiles (A.tkey i j loc)).isSome ↔ (loc = A.host_num ∨ loc = d) := by
  have hdev : mfind? s.tiles (A.tkey i j d) = none := honly d hd
  have hkey : A.tkey i j A.host_num ≠ A.tkey i j d := by
    simpa [tkey_eq_iff] using Ne.symm hd
  have hfind : mfind? (mset s.tiles (A.tkey i j d) t0.deviceCopy) (A.tkey i j A.host_num)
      = some t0 := by
    rw [mfind?_mset, if_neg hkey, hhost]
  refine ⟨{ s with tiles := mset s.tiles (A.tkey i j d) t0.deviceCopy }, ?_, hfind, ?_, ?_⟩
  · have h1 : A.tileCopyToDevice i j d s
        = some { s with tiles := mset s.tiles (A.tkey i j d) t0.deviceCopy } := by
      simp [Matrix.tileCopyToDevice, hdev, hhost]
    rw [h1, Option.some_bind]
    simp [Matrix.tileMoveToHost, hfind]
  · rw [mfind?_mset_self]
    rfl
  · intro loc
    rw [mfind?_mset]
    by_cases hl : A.tkey i j loc = A.tkey i j d
    · rw [if_pos hl]
      simp [(tkey_eq_iff A i j loc d).mp hl]
    · rw [if_neg hl]
      have hld : loc ≠ d := fun h => hl (by rw [h])
      by_cases hlh : loc = A.host_num
      · subst hlh
        simp [hhost]
      · rw [honly loc hlh]
        simp [hlh, hld]

/-- C1 witness: the amended theorem instantiated on the S4 fixture. -/
theorem c1_copy_then_move_witness :
    ((1 : Int) ≠ exS4Mat.host_num ∧
     mfind? exS4Store.tiles (exS4Mat.tkey 0 0 exS4Mat.host_num) = some exS4Tile) ∧
    (∃ s', (exS4Mat.tileCopyToDevice 0 0 1 exS4Store).bind (exS4Mat.tileMoveToHost 0 0 1)
          = some s' ∧
      mfind? s'.tiles (exS4Mat.tkey 0 0 exS4Mat.host_num) = some exS4Tile ∧
      (mfind? s'.tiles (exS4Mat.tkey 0 0 1)).map Tile.data = some exS4Tile.data ∧
      ∀ loc, (mfind? s'.tiles (exS4Mat.tkey 0 0 loc)).isSome ↔
        (loc = exS4Mat.host_num ∨ loc = 1)) :=
  ⟨⟨by decide, by decide⟩,
   c1_copy_then_move exS4Mat 0 0 1 exS4Store exS4Tile (by decide) (by decide)
     (fun loc hl => by
       have h2 : loc ≠ 2 := by simpa [exS4Mat] using hl
       simp [exS4Store, exS4Mat, exS4Tile, Matrix.tkey, mfind?, Prod.ext_iff, Ne.symm h2])⟩

/-! ### C3 — lifetime reclamation -/

/-- C3: for a non-local tile whose life counter is `L > 0`, exactly `L` calls
of `tileTick` remove the tile's registry entries from the host and from every
device and erase the life counter itself; and `tileTick` is a no-op whenever
the tile is local, so an owner's copy is never affected. -/
theorem c3_lifetime_reclaim {α : Type} (A : Matrix) (i j : Int) (L : Nat) (s : Storage α)
    (hnl : A.tileIsLocal i j = false) (hpos : 0 < L)
    (hlife : mfind? s.lives (A.lkey i j) = some (L : Int)) :
    (mfind? (A.tickN i j L s).lives (A.lkey i j) = none ∧
     mfind? (A.tickN i j L s).tiles (A.tkey i j A.host_num) = none ∧
     ∀ d : Nat, d < A.num_devices →
       mfind? (A.tickN i j L s).tiles (A.tkey i j (d : Int)) = none) ∧
    ∀ (B : Matrix) (i' j' : Int) (s' : Storage α),
      B.tileIsLocal i' j' = true → B.tileTick i' j' s' = s' :=
  ⟨tickN_drain A i j L s hnl hpos hlife,
   fun B i' j' s' h => tileTick_local B i' j' s' h⟩

/-- C3 witness: the receiving-rank fixture with life `2`; two ticks drain it. -/
theorem c3_lifetime_reclaim_witness :
    (exRemMat.tileIsLocal 0 0 = false ∧ 0 < 2 ∧
     mfind? exRemStore.lives (exRemMat.lkey 0 0) = some ((2 : Nat) : Int)) ∧
    ((mfind? (exRemMat.tickN 0 0 2 exRemStore).lives (exRemMat.lkey 0 0) = none ∧
      mfind? (exRemMat.tickN 0 0 2 exRemStore).tiles (exRemMat.tkey 0 0 exRemMat.host_num)
        = none ∧
      ∀ d : Nat, d < exRemMat.num_devices →
        mfind? (exRemMat.tickN 0 0 2 exRemStore).tiles (exRemMat.tkey 0 0 (d : Int)) = none) ∧
     ∀ (B : Matrix) (i' j' : Int) (s' : Storage Int),
       B.tileIsLocal i' j' = true → B.tileTick i' j' s' = s') :=
  ⟨⟨by decide, by decide, by decide⟩,
   c3_lifetime_reclaim exRemMat 0 0 2 exRemStore (by decide) (by decide) (by decide)⟩

/-! ### C4 — one tick too many -/

/-- C4 is false on the code: on the receiving-rank fixture with initial life
`2`, the third tick completes normally — it re-creates the life counter with
value `-1` (the `std::map` `operator[]` default-constructs `0`, which is then
decremented) — and `checkLife`, whose body is entirely commented out, reports
nothing; the negative counter is silently ignored, not detected. -/
theorem c4_counterexample :
    mfind? (exRemMat.tickN 0 0 3 exRemStore).lives (0, 0) = some (-1) ∧
    exRemMat.checkLife (exRemMat.tickN 0 0 3 exRemStore) = [] := by
  exact ⟨by decide, rfl⟩

/-- C4 (amended): issuing one more tick than the tile's initial life is
silently ignored: the extra tick re-inserts a life counter of `-1` for the
tile (the registry entries stay erased), and no `InvariantViolated` detection
or abort occurs — `checkLife` performs no checks. -/
theorem c4_extra_tick_silent {α : Type} (A : Matrix) (i j : Int) (L : Nat) (s : Storage α)
    (hnl : A.tileIsLocal i j = false) (hpos : 0 < L)
    (hlife : mfind? s.lives (A.lkey i j) = some (L : Int)) :
    mfind? (A.tickN i j (L + 1) s).lives (A.lkey i j) = some (-1) ∧
    A.checkLife (A.tickN i j (L + 1) s) = [] ∧
    mfind? (A.tickN i j (L + 1) s).tiles (A.tkey i j A.host_num) = none ∧
    ∀ d : Nat, d < A.num_devices →
      mfind? (A.tickN i j (L + 1) s).tiles (A.tkey i j (d : Int)) = none := by
  obtain ⟨hl, hh, hdev⟩ := tickN_drain A i j L s hnl hpos hlife
  have hsplit : A.tickN i j (L + 1) s = A.tileTick i j (A.tickN i j L s) := by
    rw [tickN_add A i j L 1]
    rfl
  have hlast := tileTick_nolife A i j (A.tickN i j L s) hnl hl
  rw [hsplit, hlast]
  refine ⟨mfind?_mset_self _ _ _, rfl, ?_, ?_⟩
  · exact hh
  · intro d hdd
    exact hdev d hdd

/-! ### C6 — default row-height / column-width functions -/

/-- The default row-height function's test `i*nb > m` is false for every
in-range row index, the last row included, so it always returns `nb` there. -/
theorem defaultTileMb_const (m nb i : Int) (hnb : 0 < nb) (hlt : i < ctorMt m nb) :
    defaultTileMb m nb i = nb := by
  have hdm := Int.ediv_add_emod m nb
  have hr0 : 0 ≤ m % nb := Int.emod_nonneg m (by omega)
  have hi : i ≤ m / nb := by
    unfold ctorMt at hlt
    split at hlt <;> omega
  have h2 : (m / nb) * nb = m - m % nb := by
    linarith [mul_comm nb (m / nb)]
  have h3 : i * nb ≤ (m / nb) * nb := mul_le_mul_of_nonneg_right hi (le_of_lt hnb)
  unfold defaultTileMb
  rw [if_neg (by linarith)]

/-- C6 is contradicted by the code: with `M = 5`, `nb = 2` the constructor
yields `MT = 3`, yet the installed `tileMbFunc` returns `nb = 2` for the last
row `I = MT − 1 = 2`, whereas the claim requires `M − (MT−1)·nb = 1`; the test
`i*nb > m` never fires for an in-range row (see `defaultTileMb_const`), so the
`m % nb` branch is dead and the last partial row gets height `nb`.  The column
function diverges symmetrically (`N = 7`, `nb = 3`). -/
theorem c6_last_row_height :
    ctorMt 5 2 = 3 ∧
    defaultTileMb 5 2 (ctorMt 5 2 - 1) = 2 ∧
    5 - (ctorMt 5 2 - 1) * 2 = 1 ∧
    defaultTileMb 5 2 (ctorMt 5 2 - 1) ≠ 5 - (ctorMt 5 2 - 1) * 2 ∧
    ctorMt 7 3 = 3 ∧
    defaultTileNb 7 3 (ctorMt 7 3 - 1) = 3 ∧
    defaultTileNb 7 3 (ctorMt 7 3 - 1) ≠ 7 - (ctorMt 7 3 - 1) * 3 := by decide

/-! ### C7 — wire format of the transport calls -/

/-- C7 is contradicted by the code: every transport call passes `MPI_DOUBLE`
(8-byte elements) with `count = mb·nb` regardless of `FloatType`.  On a
`2 × 2` tile the point-to-point send covers `4 · 8 = 32` bytes, while for
`FloatType = float` (a 4-byte scalar) the tile's element block occupies only
`4 · 4 = 16` bytes — the transfer is not `mb·nb` elements of the instantiated
scalar type for the float (or complex-float) instantiations. -/
theorem c7_wire_bytes :
    (exS4Mat.tileSendP2P 0 0 1 exS4Store).map (fun r => r.2.map MpiCall.byteCount)
      = some [32] ∧
    Tile.byteSize 4 exS4Tile = 16 ∧
    (exS4Mat.tileSendP2P 0 0 1 exS4Store).map (fun r => r.2.map MpiCall.byteCount)
      ≠ some [Tile.byteSize 4 exS4Tile] := by decide

/-- C4 witness: the amended theorem instantiated on the receiving-rank
fixture with life `2` and three ticks. -/
theorem c4_extra_tick_silent_witness :
    (exRemMat.tileIsLocal 0 0 = false ∧ 0 < 2 ∧
     mfind? exRemStore.lives (exRemMat.lkey 0 0) = some ((2 : Nat) : Int)) ∧
    (mfind? (exRemMat.tickN 0 0 (2 + 1) exRemStore).lives (exRemMat.lkey 0 0) = some (-1) ∧
     exRemMat.checkLife (exRemMat.tickN 0 0 (2 + 1) exRemStore) = [] ∧
     mfind? (exRemMat.tickN 0 0 (2 + 1) exRemStore).tiles
       (exRemMat.tkey 0 0 exRemMat.host_num) = none ∧
     ∀ d : Nat, d < exRemMat.num_devices →
       mfind? (exRemMat.tickN 0 0 (2 + 1) exRemStore).tiles (exRemMat.tkey 0 0 (d : Int))
         = none) :=
  ⟨⟨by decide, by decide, by decide⟩,
   c4_extra_tick_silent exRemMat 0 0 2 exRemStore (by decide) (by decide) (by decide)⟩

/-! ### C9 — submatrix views -/

/-- C9: the submatrix constructor returns a view with offsets shifted by
`(m1, n1)`, extents `m2−m1+1 × n2−n1+1`, sharing the parent's registry, life
table and memory pool; tile access through the view at `(i, j)` is tile
access through the parent at `(m1+i, n1+j)`, and an entry inserted through
the view is observed by the parent at the offset coordinates. -/
theorem c9_submatrix_view {α : Type} (a : Matrix) (m1 m2 n1 n2 : Int)
    (h1 : m1 ≤ m2) (h2 : n1 ≤ n2) (h3 : m2 < a.mt) (h4 : n2 < a.nt) :
    (a.submatrix m1 m2 n1 n2).it = a.it + m1 ∧
    (a.submatrix m1 m2 n1 n2).jt = a.jt + n1 ∧
    (a.submatrix m1 m2 n1 n2).mt = m2 - m1 + 1 ∧
    (a.submatrix m1 m2 n1 n2).nt = n2 - n1 + 1 ∧
    (a.submatrix m1 m2 n1 n2).tilesPtr = a.tilesPtr ∧
    (a.submatrix m1 m2 n1 n2).livesPtr = a.livesPtr ∧
    (a.submatrix m1 m2 n1 n2).memoryPtr = a.memoryPtr ∧
    (∀ (i j : Int) (s : Storage α),
       (a.submatrix m1 m2 n1 n2).tileAt i j s = a.tileAt (m1 + i) (n1 + j) s) ∧
    (∀ (i j : Int) (t : Tile α) (s : Storage α),
       a.tileAt (m1 + i) (n1 + j) ((a.submatrix m1 m2 n1 n2).setTileAt i j t s) = some t) := by
  have hkeys : ∀ i j : Int,
      (a.submatrix m1 m2 n1 n2).tkey i j (a.submatrix m1 m2 n1 n2).host_num
        = a.tkey (m1 + i) (n1 + j) a.host_num := by
    intro i j
    simp [Matrix.tkey, Matrix.submatrix, add_assoc]
  refine ⟨rfl, rfl, rfl, rfl, rfl, rfl, rfl, ?_, ?_⟩
  · intro i j s
    unfold Matrix.tileAt
    rw [hkeys i j]
  · intro i j t s
    unfold Matrix.setTileAt Matrix.tileAt
    rw [← hkeys i j]
    exact mfind?_mset_self _ _ _

/-- C9 witness: the S4 fixture restricted to the single-tile view `(1,1,1,1)`. -/
theorem c9_submatrix_view_witness :
    ((1 : Int) ≤ 1 ∧ (1 : Int) ≤ 1 ∧ (1 : Int) < exS4Mat.mt ∧ (1 : Int) < exS4Mat.nt) ∧
    ((exS4Mat.submatrix 1 1 1 1).it = exS4Mat.it + 1 ∧
     (exS4Mat.submatrix 1 1 1 1).jt = exS4Mat.jt + 1 ∧
     (exS4Mat.submatrix 1 1 1 1).mt = 1 - 1 + 1 ∧
     (exS4Mat.submatrix 1 1 1 1).nt = 1 - 1 + 1 ∧
     (exS4Mat.submatrix 1 1 1 1).tilesPtr = exS4Mat.tilesPtr ∧
     (exS4Mat.submatrix 1 1 1 1).livesPtr = exS4Mat.livesPtr ∧
     (exS4Mat.submatrix 1 1 1 1).memoryPtr = exS4Mat.memoryPtr ∧
     (∀ (i j : Int) (s : Storage Int),
        (exS4Mat.submatrix 1 1 1 1).tileAt i j s = exS4Mat.tileAt (1 + i) (1 + j) s) ∧
     (∀ (i j : Int) (t : Tile Int) (s : Storage Int),
        exS4Mat.tileAt (1 + i) (1 + j) ((exS4Mat.submatrix 1 1 1 1).setTileAt i j t s)
          = some t)) :=
  ⟨⟨by decide, by decide, by decide, by decide⟩,
   c9_submatrix_view exS4Mat 1 1 1 1 (by decide) (by decide) (by decide) (by decide)⟩

/-! ### C10 — only local lower-triangle tiles are materialised -/

theorem mem_merase {κ ν : Type} [DecidableEq κ] {e : κ × ν} {m : List (κ × ν)} {k : κ}
    (h : e ∈ merase m k) : e ∈ m := by
  induction m with
  | nil => simp [merase] at h
  | cons f m ih =>
    by_cases hf : f.1 = k
    · rw [merase, if_pos hf] at h
      exact List.mem_cons_of_mem _ (ih h)
    · rw [merase, if_neg hf] at h
      rcases List.mem_cons.mp h with h | h
      · exact h ▸ List.mem_cons_self _ _
      · exact List.mem_cons_of_mem _ (ih h)

theorem mem_mset {κ ν : Type} [DecidableEq κ] {e : κ × ν} {m : List (κ × ν)} {k : κ} {v : ν}
    (h : e ∈ mset m k v) : e = (k, v) ∨ e ∈ m := by
  rcases List.mem_cons.mp h with h | h
  · exact Or.inl h
  · exact Or.inr (mem_merase h)

theorem lowerFold_mem {α : Type} (A : Matrix) (wrap : Int → Int → Tile α)
    (l : List (Int × Int)) (s : Storage α) (e : TKey × Tile α)
    (h : e ∈ (l.foldl
        (fun st p =>
          if A.tileIsLocal p.1 p.2 then
            { st with tiles := mset st.tiles (A.tkey p.1 p.2 A.host_num) (wrap p.1 p.2) }
          else st) s).tiles) :
    (∃ p ∈ l, A.tileIsLocal p.1 p.2 = true ∧ e.1 = A.tkey p.1 p.2 A.host_num) ∨
      e ∈ s.tiles := by
  induction l generalizing s with
  | nil => exact Or.inr h
  | cons p l ih =>
    rw [List.foldl_cons] at h
    rcases ih _ h with ⟨q, hq, hql, hqk⟩ | h2
    · exact Or.inl ⟨q, List.mem_cons_of_mem _ hq, hql, hqk⟩
    · by_cases hp : A.tileIsLocal p.1 p.2 = true
      · rw [if_pos hp] at h2
        rcases mem_mset h2 with he | he
        · exact Or.inl ⟨p, List.mem_cons_self _ _, hp, by rw [he]⟩
        · exact Or.inr he
      · rw [if_neg hp] at h2
        exact Or.inr h2

theorem mem_lowerIdx {A : Matrix} {p : Int × Int} (h : p ∈ A.lowerIdx) :
    0 ≤ p.2 ∧ p.2 ≤ p.1 ∧ p.1 < A.mt := by
  obtain ⟨x, y⟩ := p
  simp only [Matrix.lowerIdx, List.mem_flatMap, List.mem_map, List.mem_range,
    Prod.mk.injEq] at h
  obtain ⟨i, hi, j, hj, hx, hy⟩ := h
  subst hx
  subst hy
  refine ⟨?_, ?_, ?_⟩ <;> simp only [] <;> omega

theorem foldl_count_filter {β : Type} (l : List β) (q : β → Bool) (z : Int) :
    l.foldl (fun acc x => if q x then acc + 1 else acc) z
      = z + ((l.filter q).length : Int) := by
  induction l generalizing z with
  | nil => simp
  | cons x l ih =>
    by_cases hx : q x = true
    · rw [List.foldl_cons, if_pos hx, ih, List.filter_cons, if_pos hx, List.length_cons]
      push_cast
      ring
    · rw [List.foldl_cons, if_neg hx, ih, List.filter_cons, if_neg hx]

/-- C10: no constructor path materialises an upper-triangle tile — starting
from an empty registry, every entry created by `copyTo` or by `random` sits at
a host key `(i, j, host)` with `0 ≤ j ≤ i < mt` and `tileIsLocal i j`; the
iteration domain of the counting loops is exactly the lower triangle, and
`getMaxHostTiles` / `getMaxDeviceTiles` count the local (and device-matching)
positions of that domain only. -/
theorem c10_lower_triangle {α : Type} (A : Matrix) (wrap rand : Int → Int → Tile α)
    (hit : A.it = 0) (hjt : A.jt = 0) :
    (∀ e ∈ (A.copyTo wrap ⟨[], []⟩).tiles, ∃ i j : Int,
        e.1 = (i, j, A.host_num) ∧ 0 ≤ j ∧ j ≤ i ∧ i < A.mt ∧ A.tileIsLocal i j = true) ∧
    (∀ e ∈ (A.random rand ⟨[], []⟩).tiles, ∃ i j : Int,
        e.1 = (i, j, A.host_num) ∧ 0 ≤ j ∧ j ≤ i ∧ i < A.mt ∧ A.tileIsLocal i j = true) ∧
    (∀ p ∈ A.lowerIdx, 0 ≤ p.2 ∧ p.2 ≤ p.1 ∧ p.1 < A.mt) ∧
    A.getMaxHostTiles
      = ((A.lowerIdx.filter (fun p => A.tileIsLocal p.1 p.2)).length : Int) ∧
    ∀ d : Int, A.getMaxDeviceTiles d
      = ((A.lowerIdx.filter
          (fun p => A.tileIsLocal p.1 p.2 && (A.tileDevice p.1 p.2 == d))).length : Int) := by
  have hkey : ∀ p : Int × Int, A.tkey p.1 p.2 A.host_num = (p.1, p.2, A.host_num) := by
    intro p
    simp [Matrix.tkey, hit, hjt]
  have hboth : ∀ (f : Int → Int → Tile α) (e : TKey × Tile α),
      e ∈ (A.lowerIdx.foldl
        (fun st p =>
          if A.tileIsLocal p.1 p.2 then
            { st with tiles := mset st.tiles (A.tkey p.1 p.2 A.host_num) (f p.1 p.2) }
          else st) (⟨[], []⟩ : Storage α)).tiles →
      ∃ i j : Int,
        e.1 = (i, j, A.host_num) ∧ 0 ≤ j ∧ j ≤ i ∧ i < A.mt ∧ A.tileIsLocal i j = true := by
    intro f e he
    rcases lowerFold_mem A f A.lowerIdx _ e he with ⟨p, hp, hpl, hpk⟩ | habs
    · obtain ⟨h0, hji, him⟩ := mem_lowerIdx hp
      exact ⟨p.1, p.2, by rw [hpk, hkey], h0, hji, him, hpl⟩
    · simp at habs
  refine ⟨fun e he => hboth wrap e he, fun e he => hboth rand e he,
    fun p hp => mem_lowerIdx hp, ?_, ?_⟩
  · unfold Matrix.getMaxHostTiles
    rw [foldl_count_filter A.lowerIdx (fun p => A.tileIsLocal p.1 p.2) 0, zero_add]
  · intro d
    unfold Matrix.getMaxDeviceTiles
    rw [foldl_count_filter A.lowerIdx
      (fun p => A.tileIsLocal p.1 p.2 && (A.tileDevice p.1 p.2 == d)) 0, zero_add]

/-! ### C2 and C5 — broadcast with lifetime -/

theorem bcastSetR_atRank (A : Matrix) (rk i j : Int) (r : Range) :
    (A.atRank rk).bcastSetR i j r = A.bcastSetR i j r := rfl

theorem tileSendFindLife_atRank (A : Matrix) (rk : Int) (r : Range) :
    (A.atRank rk).tileSendFindLife r
      = ((r.cells.filter (fun p => A.tileRank p.1 p.2 = rk)).card : Int) := by
  unfold Matrix.tileSendFindLife
  norm_cast
  congr 1
  apply Finset.filter_congr
  intro p _
  simp [Matrix.tileIsLocal, Matrix.atRank, Matrix.tileRank]

theorem bcast_card_ne_one {A : Matrix} {i j rk : Int} {S : Finset Int}
    (howner : A.tileRank i j ∈ S) (hin : rk ∈ S) (hno : A.tileRank i j ≠ rk) :
    S.card ≠ 1 := by
  intro h1
  obtain ⟨x, hx⟩ := Finset.card_eq_one.mp h1
  rw [hx, Finset.mem_singleton] at howner hin
  exact hno (howner.trans hin.symm)

/-- The receiving path of the one-range broadcast overload, on a rank that is
in the broadcast set but does not own the tile: the call succeeds, the host
entry afterwards holds the root's payload, and the life entry holds
`tileSendFindLife(range)`. -/
theorem tileSendRange_recv {α : Type} [Inhabited α] (A : Matrix) (i j : Int) (r : Range)
    (pd : List α) (s : Storage α)
    (hin : A.mpi_rank ∈ A.bcastSetR i j r) (hno : A.tileRank i j ≠ A.mpi_rank) :
    ∃ s' calls, A.tileSendRange Target.Host i j r pd s = some (s', calls) ∧
      (mfind? s'.tiles (A.tkey i j A.host_num)).map Tile.data = some pd ∧
      mfind? s'.lives (A.lkey i j) = some (A.tileSendFindLife r) := by
  have hloc : ¬ A.tileIsLocal i j = true := by
    simp only [Matrix.tileIsLocal, beq_iff_eq]
    exact hno
  have hcard : ¬ (A.bcastSetR i j r).card = 1 :=
    bcast_card_ne_one (Finset.mem_insert_self _ _) hin hno
  have hset : A.tileSendSet i j (A.bcastSetR i j r) pd
      ({ tiles := mset s.tiles (A.tkey i j A.host_num) (A.blankTile i j),
         lives := mset s.lives (A.lkey i j) (A.tileSendFindLife r) } : Storage α)
      = some
          (({ tiles := mset (mset s.tiles (A.tkey i j A.host_num) (A.blankTile i j))
                (A.tkey i j A.host_num) ⟨A.tileMb i, A.tileNb j, pd⟩,
              lives := mset s.lives (A.lkey i j) (A.tileSendFindLife r) } : Storage α),
           [MpiCall.bcast (A.tileMb i * A.tileNb j) MpiDatatype.double (A.tileRank i j)]) := by
    unfold Matrix.tileSendSet
    rw [if_neg hcard, mfind?_mset_self]
    rfl
  refine ⟨{ tiles := mset (mset s.tiles (A.tkey i j A.host_num) (A.blankTile i j))
              (A.tkey i j A.host_num) ⟨A.tileMb i, A.tileNb j, pd⟩,
            lives := mset s.lives (A.lkey i j) (A.tileSendFindLife r) },
          [MpiCall.bcast (A.tileMb i * A.tileNb j) MpiDatatype.double (A.tileRank i j)],
          ?_, ?_, ?_⟩
  · simp only [Matrix.tileSendRange]
    rw [if_pos hin, if_neg hloc, hset]
    rfl
  · rw [mfind?_mset_self]
    rfl
  · exact mfind?_mset_self _ _ _

/-- The receiving path of the two-range broadcast overload: as above, with the
life entry set to the sum of the two range counts. -/
theorem tileSendRange2_recv {α : Type} [Inhabited α] (A : Matrix) (i j : Int) (r1 r2 : Range)
    (pd : List α) (s : Storage α)
    (hin : A.mpi_rank ∈ A.bcastSetR2 i j r1 r2) (hno : A.tileRank i j ≠ A.mpi_rank) :
    ∃ s' calls, A.tileSendRange2 Target.Host i j r1 r2 pd s = some (s', calls) ∧
      (mfind? s'.tiles (A.tkey i j A.host_num)).map Tile.data = some pd ∧
      mfind? s'.lives (A.lkey i j)
        = some (A.tileSendFindLife r1 + A.tileSendFindLife r2) := by
  have hloc : ¬ A.tileIsLocal i j = true := by
    simp only [Matrix.tileIsLocal, beq_iff_eq]
    exact hno
  have hcard : ¬ (A.bcastSetR2 i j r1 r2).card = 1 :=
    bcast_card_ne_one (Finset.mem_insert_self _ _) hin hno
  have hset : A.tileSendSet i j (A.bcastSetR2 i j r1 r2) pd
      ({ tiles := mset s.tiles (A.tkey i j A.host_num) (A.blankTile i j),
         lives := mset s.lives (A.lkey i j)
           (A.tileSendFindLife r1 + A.tileSendFindLife r2) } : Storage α)
      = some
          (({ tiles := mset (mset s.tiles (A.tkey i j A.host_num) (A.blankTile i j))
                (A.tkey i j A.host_num) ⟨A.tileMb i, A.tileNb j, pd⟩,
              lives := mset s.lives (A.lkey i j)
                (A.tileSendFindLife r1 + A.tileSendFindLife r2) } : Storage α),
           [MpiCall.bcast (A.tileMb i * A.tileNb j) MpiDatatype.double (A.tileRank i j)]) := by
    unfold Matrix.tileSendSet
    rw [if_neg hcard, mfind?_mset_self]
    rfl
  refine ⟨{ tiles := mset (mset s.tiles (A.tkey i j A.host_num) (A.blankTile i j))
              (A.tkey i j A.host_num) ⟨A.tileMb i, A.tileNb j, pd⟩,
            lives := mset s.lives (A.lkey i j)
              (A.tileSendFindLife r1 + A.tileSendFindLife r2) },
          [MpiCall.bcast (A.tileMb i * A.tileNb j) MpiDatatype.double (A.tileRank i j)],
          ?_, ?_, ?_⟩
  · simp only [Matrix.tileSendRange2]
    rw [if_pos hin, if_neg hloc, hset]
    rfl
  · rw [mfind?_mset_self]
    rfl
  · exact mfind?_mset_self _ _ _

/-- C2: after the broadcast returns, a rank `rk` of the broadcast set that
does not own tile `(i, j)` holds a host registry entry whose contents equal
the owner's tile, and its life counter equals the number of cells of the
range whose owner rank is `rk` — for the two-range overload, the sum of the
two counts. -/
theorem c2_tile_bcast {α : Type} [Inhabited α] (A : Matrix) (i j : Int) (r r1 r2 : Range)
    (cfg : Int → Storage α) (pd : List α) (rk : Int)
    (hpd : ownerData A i j cfg = some pd)
    (hno : A.tileRank i j ≠ rk) :
    (rk ∈ A.bcastSetR i j r →
      ∃ s' calls,
        (A.atRank rk).tileSendRange Target.Host i j r pd (cfg rk) = some (s', calls) ∧
        (mfind? s'.tiles (A.tkey i j A.host_num)).map Tile.data = ownerData A i j cfg ∧
        mfind? s'.lives (A.lkey i j)
          = some ((r.cells.filter (fun p => A.tileRank p.1 p.2 = rk)).card : Int)) ∧
    (rk ∈ A.bcastSetR2 i j r1 r2 →
      ∃ s' calls,
        (A.atRank rk).tileSendRange2 Target.Host i j r1 r2 pd (cfg rk) = some (s', calls) ∧
        (mfind? s'.tiles (A.tkey i j A.host_num)).map Tile.data = ownerData A i j cfg ∧
        mfind? s'.lives (A.lkey i j)
          = some (((r1.cells.filter (fun p => A.tileRank p.1 p.2 = rk)).card : Int)
              + ((r2.cells.filter (fun p => A.tileRank p.1 p.2 = rk)).card : Int))) := by
  constructor
  · intro hin
    obtain ⟨s', calls, heq, hdata, hlives⟩ :=
      tileSendRange_recv (A.atRank rk) i j r pd (cfg rk) hin hno
    refine ⟨s', calls, heq, ?_, ?_⟩
    · rw [hpd]
      exact hdata
    · rw [tileSendFindLife_atRank] at hlives
      exact hlives
  · intro hin
    obtain ⟨s', calls, heq, hdata, hlives⟩ :=
      tileSendRange2_recv (A.atRank rk) i j r1 r2 pd (cfg rk) hin hno
    refine ⟨s', calls, heq, ?_, ?_⟩
    · rw [hpd]
      exact hdata
    · rw [tileSendFindLife_atRank, tileSendFindLife_atRank] at hlives
      exact hlives

/-- Fixture for scenario S2: `M = N = 16`, `nb = 4`, `p = q = 2` (four
ranks), no devices; the host id is `0`. -/
def exGridMat : Matrix :=
  { it := 0, jt := 0, mt := ctorMt 16 4, nt := ctorMt 16 4,
    tileRankFunc := defaultTileRank 2 2,
    tileDeviceFunc := defaultTileDevice 2 0 0,
    tileMbFunc := defaultTileMb 16 4,
    tileNbFunc := defaultTileNb 16 4,
    mpi_rank := 0, mpi_size := 4, host_num := 0, num_devices := 0,
    tilesPtr := 0, livesPtr := 0, memoryPtr := 0 }

/-- A four-rank configuration where only the owner (rank 0) holds tile
`(0, 0)`. -/
def exGridCfg : Int → Storage Int := fun rk =>
  if rk = 0 then ⟨[((0, 0, 0), exS4Tile)], []⟩ else ⟨[], []⟩

/-- The S2 consumer range `[0..1] × [0..3]`. -/
def exRange1 : Range := ⟨0, 1, 0, 3⟩

/-- A second consumer range `[2..3] × [0..0]`. -/
def exRange2 : Range := ⟨2, 3, 0, 0⟩

/-- C2 witness: rank 1 of the S2 fixture receives `(0, 0)` with the correct
life counters for one and for two ranges. -/
theorem c2_tile_bcast_witness :
    (ownerData exGridMat 0 0 exGridCfg = some exS4Tile.data ∧
     exGridMat.tileRank 0 0 ≠ 1 ∧
     (1 : Int) ∈ exGridMat.bcastSetR 0 0 exRange1 ∧
     (1 : Int) ∈ exGridMat.bcastSetR2 0 0 exRange1 exRange2) ∧
    (∃ s' calls,
       (exGridMat.atRank 1).tileSendRange Target.Host 0 0 exRange1 exS4Tile.data
           (exGridCfg 1) = some (s', calls) ∧
       (mfind? s'.tiles (exGridMat.tkey 0 0 exGridMat.host_num)).map Tile.data
         = ownerData exGridMat 0 0 exGridCfg ∧
       mfind? s'.lives (exGridMat.lkey 0 0)
         = some ((exRange1.cells.filter
             (fun p => exGridMat.tileRank p.1 p.2 = 1)).card : Int)) ∧
    (∃ s' calls,
       (exGridMat.atRank 1).tileSendRange2 Target.Host 0 0 exRange1 exRange2 exS4Tile.data
           (exGridCfg 1) = some (s', calls) ∧
       (mfind? s'.tiles (exGridMat.tkey 0 0 exGridMat.host_num)).map Tile.data
         = ownerData exGridMat 0 0 exGridCfg ∧
       mfind? s'.lives (exGridMat.lkey 0 0)
         = some (((exRange1.cells.filter
               (fun p => exGridMat.tileRank p.1 p.2 = 1)).card : Int)
             + ((exRange2.cells.filter
               (fun p => exGridMat.tileRank p.1 p.2 = 1)).card : Int))) :=
  ⟨⟨by decide, by decide, by decide, by decide⟩,
   (c2_tile_bcast exGridMat 0 0 exRange1 exRange1 exRange2 exGridCfg exS4Tile.data 1
      (by decide) (by decide)).1 (by decide),
   (c2_tile_bcast exGridMat 0 0 exRange1 exRange1 exRange2 exGridCfg exS4Tile.data 1
      (by decide) (by decide)).2 (by decide)⟩

/-- C5: a rank outside the broadcast set returns immediately — its registry
and life table are unchanged and it issues no transport call; and when the
broadcast set has size 1 (owner only), every rank returns with state
unchanged and no transport call is made (the set-overload send quits before
any MPI call). -/
theorem c5_bcast_frame {α : Type} [Inhabited α] (A : Matrix) (i j : Int) (r : Range)
    (pd : List α) (s : Storage α) (rk : Int) :
    (rk ∉ A.bcastSetR i j r →
       (A.atRank rk).tileSendRange Target.Host i j r pd s = some (s, [])) ∧
    ((A.bcastSetR i j r).card = 1 →
       (A.atRank rk).tileSendRange Target.Host i j r pd s = some (s, [])) ∧
    ∀ S : Finset Int, S.card = 1 → A.tileSendSet i j S pd s = some (s, []) := by
  have hout : rk ∉ A.bcastSetR i j r →
      (A.atRank rk).tileSendRange Target.Host i j r pd s = some (s, []) := by
    intro h
    simp only [Matrix.tileSendRange]
    rw [if_neg (show ¬ (A.atRank rk).mpi_rank ∈ (A.atRank rk).bcastSetR i j r from h)]
  refine ⟨hout, ?_, ?_⟩
  · intro hc
    by_cases hin : rk ∈ A.bcastSetR i j r
    · obtain ⟨x, hx⟩ := Finset.card_eq_one.mp hc
      have howner : A.tileRank i j ∈ A.bcastSetR i j r := Finset.mem_insert_self _ _
      rw [hx, Finset.mem_singleton] at howner hin
      have hloc : (A.atRank rk).tileIsLocal i j = true := by
        simp only [Matrix.tileIsLocal, beq_iff_eq]
        show A.tileRank i j = rk
        rw [howner, hin]
      have hset : (A.atRank rk).tileSendSet i j ((A.atRank rk).bcastSetR i j r) pd s
          = some (s, []) := by
        unfold Matrix.tileSendSet
        rw [if_pos (show ((A.atRank rk).bcastSetR i j r).card = 1 from hc)]
      simp only [Matrix.tileSendRange]
      rw [if_pos (show (A.atRank rk).mpi_rank ∈ (A.atRank rk).bcastSetR i j r from hin ▸
            (hx ▸ Finset.mem_singleton_self x)), if_pos hloc, hset]
      rfl
    · exact hout hin
  · intro S hS
    unfold Matrix.tileSendSet
    rw [if_pos hS]

/-- A single-tile consumer range containing only the owner's cell. -/
def exRange0 : Range := ⟨0, 0, 0, 0⟩

/-- C5 witness: rank 5 is outside the S2 broadcast set and returns unchanged;
on the single-rank S4 fixture the broadcast set is `{0}` and every rank
(including the owner, rank 0) returns unchanged with no transport. -/
theorem c5_bcast_frame_witness :
    ((5 : Int) ∉ exGridMat.bcastSetR 0 0 exRange1 ∧
     (exS4Mat.bcastSetR 0 0 exRange0).card = 1) ∧
    (exGridMat.atRank 5).tileSendRange Target.Host 0 0 exRange1 exS4Tile.data
        (exGridCfg 5) = some (exGridCfg 5, []) ∧
    (exS4Mat.atRank 0).tileSendRange Target.Host 0 0 exRange0 exS4Tile.data exS4Store
        = some (exS4Store, []) ∧
    ∀ S : Finset Int, S.card = 1 →
      exS4Mat.tileSendSet 0 0 S exS4Tile.data exS4Store = some (exS4Store, []) :=
  ⟨⟨by decide, by decide⟩,
   (c5_bcast_frame exGridMat 0 0 exRange1 exS4Tile.data (exGridCfg 5) 5).1 (by decide),
   (c5_bcast_frame exS4Mat 0 0 exRange0 exS4Tile.data exS4Store 0).2.1 (by decide),
   (c5_bcast_frame exS4Mat 0 0 exRange0 exS4Tile.data exS4Store 0).2.2⟩

/-! ### C8 — gather fidelity -/

theorem gatherRootFold {α : Type} (A : Matrix) (cfg : Int → Storage α) :
    ∀ L : List (Int × Int),
    (∀ p ∈ L, (A.atRank 0).tileIsLocal p.1 p.2 = false →
       (ownerData A p.1 p.2 cfg).isSome = true) →
    ∀ (s : Storage α) (cs : List MpiCall),
    ∃ s' cs', L.foldlM (A.gatherRootStep cfg) (s, cs) = some (s', cs') ∧
      (∀ k : TKey,
         (∀ q ∈ L, (A.atRank 0).tileIsLocal q.1 q.2 = false →
            k ≠ A.tkey q.1 q.2 A.host_num) →
         mfind? s'.tiles k = mfind? s.tiles k) ∧
      (∀ p ∈ L, (A.atRank 0).tileIsLocal p.1 p.2 = false →
         (mfind? s'.tiles (A.tkey p.1 p.2 A.host_num)).map Tile.data
           = ownerData A p.1 p.2 cfg) ∧
      cs' = cs ++ L.filterMap (fun p =>
        if (A.atRank 0).tileIsLocal p.1 p.2 then none
        else some (MpiCall.recv (A.tileMb p.1 * A.tileNb p.2) MpiDatatype.double
          (A.tileRank p.1 p.2))) := by
  intro L
  induction L with
  | nil =>
    intro _ s cs
    exact ⟨s, cs, rfl, fun k _ => rfl, fun p hp => absurd hp (List.not_mem_nil p), by simp⟩
  | cons p L ih =>
    intro hod s cs
    have hodL : ∀ q ∈ L, (A.atRank 0).tileIsLocal q.1 q.2 = false →
        (ownerData A q.1 q.2 cfg).isSome = true :=
      fun q hq => hod q (List.mem_cons_of_mem p hq)
    by_cases hp : (A.atRank 0).tileIsLocal p.1 p.2 = true
    · have hstep : A.gatherRootStep cfg (s, cs) p = some (s, cs) := by
        simp [Matrix.gatherRootStep, hp]
      obtain ⟨s', cs', heq, hframe, hdata, hcalls⟩ := ih hodL s cs
      refine ⟨s', cs', ?_, ?_, ?_, ?_⟩
      · rw [List.foldlM_cons, hstep]
        exact heq
      · intro k hk
        exact hframe k (fun q hq hql => hk q (List.mem_cons_of_mem p hq) hql)
      · intro p' hp' hnl'
        rcases List.mem_cons.mp hp' with heq' | hpL
        · rw [heq'] at hnl'
          rw [hp] at hnl'
          cases hnl'
        · exact hdata p' hpL hnl'
      · rw [hcalls, List.filterMap_cons]
        simp [hp]
    · have hnl : (A.atRank 0).tileIsLocal p.1 p.2 = false := by
        simpa using hp
      obtain ⟨pd, hpd⟩ := Option.isSome_iff_exists.mp (hod p (List.mem_cons_self p L) hnl)
      have hstep : A.gatherRootStep cfg (s, cs) p
          = some (({ s with
                     tiles := mset s.tiles (A.tkey p.1 p.2 A.host_num) ⟨A.tileMb p.1, A.tileNb p.2, pd⟩ } : Storage α),
                  cs ++ [MpiCall.recv (A.tileMb p.1 * A.tileNb p.2) MpiDatatype.double
                    (A.tileRank p.1 p.2)]) := by
        simp only [Matrix.gatherRootStep, hnl, Bool.false_eq_true, if_false, hpd]
        rfl
      obtain ⟨s', cs', heq, hframe, hdata, hcalls⟩ := ih hodL
        ({ s with
           tiles := mset s.tiles (A.tkey p.1 p.2 A.host_num) ⟨A.tileMb p.1, A.tileNb p.2, pd⟩ } : Storage α)
        (cs ++ [MpiCall.recv (A.tileMb p.1 * A.tileNb p.2) MpiDatatype.double
          (A.tileRank p.1 p.2)])
      refine ⟨s', cs', ?_, ?_, ?_, ?_⟩
      · rw [List.foldlM_cons, hstep]
        exact heq
      · intro k hk
        have hk1 : k ≠ A.tkey p.1 p.2 A.host_num := hk p (List.mem_cons_self p L) hnl
        rw [hframe k (fun q hq hql => hk q (List.mem_cons_of_mem p hq) hql)]
        exact (mfind?_mset s.tiles (A.tkey p.1 p.2 A.host_num) k
          ⟨A.tileMb p.1, A.tileNb p.2, pd⟩).trans (if_neg hk1)
      · intro p' hp' hnl'
        rcases List.mem_cons.mp hp' with heq' | hpL
        · rw [heq'] at hnl' ⊢
          by_cases hdup : p ∈ L
          · exact hdata p hdup hnl'
          · have hnokey : ∀ q ∈ L, (A.atRank 0).tileIsLocal q.1 q.2 = false →
                A.tkey p.1 p.2 A.host_num ≠ A.tkey q.1 q.2 A.host_num := by
              intro q hq hql hkq
              exact hdup (((tkey_inj A A.host_num p q).mp hkq) ▸ hq)
            rw [hframe _ hnokey, hpd]
            exact congrArg (Option.map Tile.data)
              (mfind?_mset_self s.tiles (A.tkey p.1 p.2 A.host_num)
                ⟨A.tileMb p.1, A.tileNb p.2, pd⟩)
        · exact hdata p' hpL hnl'
      · rw [hcalls, List.filterMap_cons]
        simp [hnl]

theorem gatherNonRootFold {α : Type} (A : Matrix) (rk : Int) :
    ∀ L : List (Int × Int),
    ∀ (s : Storage α) (cs : List MpiCall),
    (∀ p ∈ L, (A.atRank rk).tileIsLocal p.1 p.2 = true →
       (mfind? s.tiles (A.tkey p.1 p.2 A.host_num)).isSome = true) →
    ∃ cs', L.foldlM (A.gatherNonRootStep rk) (s, cs) = some (s, cs') ∧
      cs' = cs ++ L.filterMap (fun p =>
        if (A.atRank rk).tileIsLocal p.1 p.2 then
          (mfind? s.tiles (A.tkey p.1 p.2 A.host_num)).map
            (fun t => MpiCall.send (t.mb * t.nb) MpiDatatype.double 0)
        else none) := by
  intro L
  induction L with
  | nil =>
    intro s cs _
    exact ⟨cs, rfl, by simp⟩
  | cons p L ih =>
    intro s cs hloc
    have hlocL : ∀ q ∈ L, (A.atRank rk).tileIsLocal q.1 q.2 = true →
        (mfind? s.tiles (A.tkey q.1 q.2 A.host_num)).isSome = true :=
      fun q hq => hloc q (List.mem_cons_of_mem p hq)
    by_cases hp : (A.atRank rk).tileIsLocal p.1 p.2 = true
    · obtain ⟨t, ht⟩ := Option.isSome_iff_exists.mp (hloc p (List.mem_cons_self p L) hp)
      have hstep : A.gatherNonRootStep rk (s, cs) p
          = some (s, cs ++ [MpiCall.send (t.mb * t.nb) MpiDatatype.double 0]) := by
        simp only [Matrix.gatherNonRootStep, hp, if_true, Matrix.tileSendP2P]
        rw [show mfind? s.tiles ((A.atRank rk).tkey p.1 p.2 (A.atRank rk).host_num)
              = some t from ht]
      obtain ⟨cs', heq, hcalls⟩ := ih s
        (cs ++ [MpiCall.send (t.mb * t.nb) MpiDatatype.double 0]) hlocL
      refine ⟨cs', ?_, ?_⟩
      · rw [List.foldlM_cons, hstep]
        exact heq
      · rw [hcalls, List.filterMap_cons]
        rw [show (if (A.atRank rk).tileIsLocal p.1 p.2 then
              (mfind? s.tiles (A.tkey p.1 p.2 A.host_num)).map
                (fun t => MpiCall.send (t.mb * t.nb) MpiDatatype.double 0)
            else none)
          = some (MpiCall.send (t.mb * t.nb) MpiDatatype.double 0) from by
            rw [if_pos hp, ht]
            rfl]
        simp
    · have hstep : A.gatherNonRootStep rk (s, cs) p = some (s, cs) := by
        simp [Matrix.gatherNonRootStep, hp]
      obtain ⟨cs', heq, hcalls⟩ := ih s cs hlocL
      refine ⟨cs', ?_, ?_⟩
      · rw [List.foldlM_cons, hstep]
        exact heq
      · rw [hcalls, List.filterMap_cons]
        simp [hp]

/-- C8: after `gather()`, the root holds a host entry for every lower-triangle
tile `(i, j)` (with `j ≤ i` and `j < nt`), bit-for-bit equal to the owning
rank's tile; the root's transport consists of exactly one receive per
non-local lower-triangle tile, and every non-root rank leaves its own registry
unchanged and sends exactly its locally owned lower-triangle tiles to root. -/
theorem c8_gather_fidelity {α : Type} (A : Matrix) (cfg : Int → Storage α)
    (hod : ∀ p ∈ A.gatherIdx, (ownerData A p.1 p.2 cfg).isSome = true) :
    (∃ s0 cs0, A.gather cfg 0 = some (s0, cs0) ∧
       (∀ p ∈ A.gatherIdx,
          (mfind? s0.tiles (A.tkey p.1 p.2 A.host_num)).map Tile.data
            = ownerData A p.1 p.2 cfg) ∧
       cs0 = A.gatherIdx.filterMap (fun p =>
         if (A.atRank 0).tileIsLocal p.1 p.2 then none
         else some (MpiCall.recv (A.tileMb p.1 * A.tileNb p.2) MpiDatatype.double
           (A.tileRank p.1 p.2)))) ∧
    ∀ rk : Int, rk ≠ 0 →
      ∃ cs, A.gather cfg rk = some (cfg rk, cs) ∧
        cs = A.gatherIdx.filterMap (fun p =>
          if (A.atRank rk).tileIsLocal p.1 p.2 then
            (mfind? (cfg rk).tiles (A.tkey p.1 p.2 A.host_num)).map
              (fun t => MpiCall.send (t.mb * t.nb) MpiDatatype.double 0)
          else none) := by
  constructor
  · obtain ⟨s0, cs0, heq, hframe, hdata, hcalls⟩ :=
      gatherRootFold A cfg A.gatherIdx (fun p hp _ => hod p hp) (cfg 0) []
    refine ⟨s0, cs0, ?_, ?_, by simpa using hcalls⟩
    · show A.gatherRoot cfg = some (s0, cs0)
      exact heq
    · intro p hp
      by_cases hl : (A.atRank 0).tileIsLocal p.1 p.2 = true
      · have hrank : A.tileRank p.1 p.2 = 0 := by
          simpa [Matrix.tileIsLocal, Matrix.atRank] using hl
        have hnokey : ∀ q ∈ A.gatherIdx, (A.atRank 0).tileIsLocal q.1 q.2 = false →
            A.tkey p.1 p.2 A.host_num ≠ A.tkey q.1 q.2 A.host_num := by
          intro q hq hql hkq
          rw [(tkey_inj A A.host_num p q).mp hkq] at hl
          rw [hl] at hql
          cases hql
        rw [hframe _ hnokey]
        unfold ownerData
        rw [hrank]
      · have hnl : (A.atRank 0).tileIsLocal p.1 p.2 = false := by simpa using hl
        exact hdata p hp hnl
  · intro rk hrk
    have hlocs : ∀ p ∈ A.gatherIdx, (A.atRank rk).tileIsLocal p.1 p.2 = true →
        (mfind? (cfg rk).tiles (A.tkey p.1 p.2 A.host_num)).isSome = true := by
      intro p hp hl
      have hrank : A.tileRank p.1 p.2 = rk := by
        simpa [Matrix.tileIsLocal, Matrix.atRank] using hl
      have := hod p hp
      unfold ownerData at this
      rw [hrank] at this
      simpa using this
    obtain ⟨cs, heq, hcalls⟩ :=
      gatherNonRootFold A rk A.gatherIdx (cfg rk) [] hlocs
    refine ⟨cs, ?_, by simpa using hcalls⟩
    show A.gather cfg rk = some (cfg rk, cs)
    unfold Matrix.gather
    rw [if_neg hrk]
    exact heq

/-- A four-rank configuration for the S2/S5-style grid in which every rank
holds exactly its locally owned lower-triangle tiles. -/
def exGatherCfg : Int → Storage Int := fun rk =>
  if rk = 0 then ⟨[((0, 0, 0), exS4Tile), ((2, 0, 0), exS4Tile), ((2, 2, 0), exS4Tile)], []⟩
  else if rk = 1 then ⟨[((1, 0, 0), exS4Tile), ((3, 0, 0), exS4Tile), ((3, 2, 0), exS4Tile)], []⟩
  else if rk = 2 then ⟨[((2, 1, 0), exS4Tile)], []⟩
  else if rk = 3 then ⟨[((1, 1, 0), exS4Tile), ((3, 1, 0), exS4Tile), ((3, 3, 0), exS4Tile)], []⟩
  else ⟨[], []⟩

/-- C8 witness: the four-rank grid fixture where every owner holds its
lower-triangle tiles. -/
theorem c8_gather_fidelity_witness :
    (∀ p ∈ exGridMat.gatherIdx, (ownerData exGridMat p.1 p.2 exGatherCfg).isSome = true) ∧
    ((∃ s0 cs0, exGridMat.gather exGatherCfg 0 = some (s0, cs0) ∧
       (∀ p ∈ exGridMat.gatherIdx,
          (mfind? s0.tiles (exGridMat.tkey p.1 p.2 exGridMat.host_num)).map Tile.data
            = ownerData exGridMat p.1 p.2 exGatherCfg) ∧
       cs0 = exGridMat.gatherIdx.filterMap (fun p =>
         if (exGridMat.atRank 0).tileIsLocal p.1 p.2 then none
         else some (MpiCall.recv (exGridMat.tileMb p.1 * exGridMat.tileNb p.2)
           MpiDatatype.double (exGridMat.tileRank p.1 p.2)))) ∧
     ∀ rk : Int, rk ≠ 0 →
       ∃ cs, exGridMat.gather exGatherCfg rk = some (exGatherCfg rk, cs) ∧
         cs = exGridMat.gatherIdx.filterMap (fun p =>
           if (exGridMat.atRank rk).tileIsLocal p.1 p.2 then
             (mfind? (exGatherCfg rk).tiles
               (exGridMat.tkey p.1 p.2 exGridMat.host_num)).map
               (fun t => MpiCall.send (t.mb * t.nb) MpiDatatype.double 0)
           else none)) :=
  ⟨by decide, c8_gather_fidelity exGridMat exGatherCfg (by decide)⟩

/-- C10 witness: the S4 fixture with constant tile generators. -/
theorem c10_lower_triangle_witness :
    (exS4Mat.it = 0 ∧ exS4Mat.jt = 0) ∧
    ((∀ e ∈ (exS4Mat.copyTo (fun _ _ => exS4Tile) ⟨[], []⟩).tiles, ∃ i j : Int,
        e.1 = (i, j, exS4Mat.host_num) ∧ 0 ≤ j ∧ j ≤ i ∧ i < exS4Mat.mt ∧
        exS4Mat.tileIsLocal i j = true) ∧
     (∀ e ∈ (exS4Mat.random (fun _ _ => exS4Tile) ⟨[], []⟩).tiles, ∃ i j : Int,
        e.1 = (i, j, exS4Mat.host_num) ∧ 0 ≤ j ∧ j ≤ i ∧ i < exS4Mat.mt ∧
        exS4Mat.tileIsLocal i j = true) ∧
     (∀ p ∈ exS4Mat.lowerIdx, 0 ≤ p.2 ∧ p.2 ≤ p.1 ∧ p.1 < exS4Mat.mt) ∧
     exS4Mat.getMaxHostTiles
       = ((exS4Mat.lowerIdx.filter (fun p => exS4Mat.tileIsLocal p.1 p.2)).length : Int) ∧
     ∀ d : Int, exS4Mat.getMaxDeviceTiles d
       = ((exS4Mat.lowerIdx.filter
           (fun p => exS4Mat.tileIsLocal p.1 p.2 && (exS4Mat.tileDevice p.1 p.2 == d))).length
          : Int)) :=
  ⟨⟨by decide, by decide⟩,
   c10_lower_triangle exS4Mat (fun _ _ => exS4Tile) (fun _ _ => exS4Tile)
     (by decide) (by decide)⟩

end Slate
